import Mathlib

/-!
Verification of the `vector-traits` repository (a trait layer over 2D/3D
floating-point vectors).

The repository's scalars are IEEE-754 binary floats (`f32`, `f64`).  We embed
them exactly: a float is its bit pattern, a `Nat`.  Every finite float of a
format is an integer multiple of the smallest subnormal `2 ^ Efix`, so finite
values are represented by that integer ("fixed-scale significand") and all
arithmetic (multiplication, division, addition, square root) is performed as
exact integer arithmetic followed by correct rounding to nearest, ties to
even, implemented by a binary search over the (monotone) magnitude patterns.

The vector operations (`safe_normalize`, `normalize`, `perp_dot`, `cross`,
`to_2d`/`to_3d`, setters, the `Approx` comparisons, scalar `clamp`) are
translated from `src/lib.rs`, `src/glam_impl.rs` and `src/cgmath_impl.rs`.
Operations that the repository delegates to its backing libraries
(`glam`/`cgmath` length, dot, cross, division; the `approx` crate per-scalar
comparisons; `std` float clamp) are modelled from the spec, as noted on each
definition.
-/

namespace VectorTraits

/-- An IEEE-754 binary interchange format: `prec` significand bits (hidden bit
included) and `ebits` exponent bits.  `f32` is `⟨24, 8⟩`, `f64` is `⟨53, 11⟩`. -/
structure Fmt where
  prec : Nat
  ebits : Nat
deriving DecidableEq

/-- The `f32` format (single precision). -/
def f32 : Fmt := ⟨24, 8⟩

/-- The `f64` format (double precision). -/
def f64 : Fmt := ⟨53, 11⟩

namespace Fmt

/-- Exponent bias (127 for `f32`, 1023 for `f64`). -/
def bias (f : Fmt) : Nat := 2 ^ (f.ebits - 1) - 1

/-- Value of the hidden significand bit; also the width of the mantissa field. -/
def mf (f : Fmt) : Nat := 2 ^ (f.prec - 1)

/-- All-ones exponent field (infinities and NaNs). -/
def expTop (f : Fmt) : Nat := 2 ^ f.ebits - 1

/-- Magnitude pattern of `+∞`. -/
def infP (f : Fmt) : Nat := f.expTop * f.mf

/-- Largest finite magnitude pattern. -/
def maxFinP (f : Fmt) : Nat := f.infP - 1

/-- The canonical quiet NaN pattern the model produces. -/
def nanP (f : Fmt) : Nat := f.infP + 2 ^ (f.prec - 2)

/-- Value of the sign bit in a full pattern. -/
def signBit (f : Fmt) : Nat := 2 ^ (f.ebits + f.prec - 1)

/-- Every finite float of the format is `n * 2 ^ (-scaleE)` for an integer `n`:
`scaleE = prec + bias - 2`, so `2 ^ (-scaleE)` is the smallest subnormal. -/
def scaleE (f : Fmt) : Nat := f.prec + f.bias - 2

/-- Well-formedness of a format (both real formats satisfy it). -/
def Valid (f : Fmt) : Prop := 2 ≤ f.prec ∧ 2 ≤ f.ebits

instance : DecidablePred Fmt.Valid := fun f => by unfold Fmt.Valid; infer_instance

end Fmt

/-- Fixed-scale integer value of a magnitude pattern `P` (i.e. the represented
magnitude is `patVal P * 2 ^ (-scaleE)`).  Monotone in `P`; extends smoothly to
`P = infP`, which denotes `2 ^ (emax + 1)`, the first value past the finite
range. -/
def patVal (fmt : Fmt) (P : Nat) : Nat :=
  if P / fmt.mf = 0 then P % fmt.mf else (P % fmt.mf + fmt.mf) * 2 ^ (P / fmt.mf - 1)

/-- Largest `P` in `[lo, hi]` satisfying the (downward-closed) predicate,
assuming `pred lo`; fuel-driven binary search. -/
def bsearchLE (pred : Nat → Bool) : Nat → Nat → Nat → Nat
  | 0, lo, _ => lo
  | fuel + 1, lo, hi =>
    if hi ≤ lo then lo
    else if pred ((lo + hi + 1) / 2) then bsearchLE pred fuel ((lo + hi + 1) / 2) hi
    else bsearchLE pred fuel lo ((lo + hi + 1) / 2 - 1)

/-- Choose between the bracketing patterns `P` and `P + 1` around
`(num/den) * 2 ^ (-scaleE)`: nearest, ties to even. -/
def nearestPick (fmt : Fmt) (num den P : Nat) : Nat :=
  if 2 * num < (patVal fmt P + patVal fmt (P + 1)) * den then P
  else if (patVal fmt P + patVal fmt (P + 1)) * den < 2 * num then P + 1
  else if P % 2 = 0 then P else P + 1

/-- Round the non-negative real `(num / den) * 2 ^ (-scaleE)` to a magnitude
pattern, nearest, ties to even, overflow to `infP` (IEEE round-to-nearest-even
with unbounded-exponent overflow rule). -/
def roundQ (fmt : Fmt) (num den : Nat) : Nat :=
  if (patVal fmt fmt.maxFinP + patVal fmt (fmt.maxFinP + 1)) * den ≤ 2 * num then fmt.infP
  else nearestPick fmt num den (bsearchLE (fun P => patVal fmt P * den ≤ num) 70 0 fmt.maxFinP)

/-- Choose between the bracketing patterns `P` and `P + 1` around
`√(t * 2 ^ (-scaleE) * 2 ^ (-scaleE))`, comparing exact squares. -/
def nearestPickSqrt (fmt : Fmt) (t P : Nat) : Nat :=
  if 4 * t < (patVal fmt P + patVal fmt (P + 1)) ^ 2 then P
  else if (patVal fmt P + patVal fmt (P + 1)) ^ 2 < 4 * t then P + 1
  else if P % 2 = 0 then P else P + 1

/-- Round `√(n * 2 ^ (-scaleE))` to a magnitude pattern (nearest, ties to
even); comparisons against the grid are done on exact squares. -/
def roundSqrt (fmt : Fmt) (n : Nat) : Nat :=
  let t := n * 2 ^ fmt.scaleE
  if (patVal fmt fmt.maxFinP + patVal fmt (fmt.maxFinP + 1)) ^ 2 ≤ 4 * t then fmt.infP
  else nearestPickSqrt fmt t (bsearchLE (fun P => patVal fmt P ^ 2 ≤ t) 70 0 fmt.maxFinP)

/-- Semantic class of a float pattern: NaN, signed infinity, or a finite value
given by sign and fixed-scale integer magnitude (`n * 2 ^ (-scaleE)`). -/
inductive FVal where
  | nan : FVal
  | inf : Bool → FVal
  | fin : Bool → Nat → FVal
deriving DecidableEq

/-- Decode a bit pattern: split sign / exponent field / mantissa field exactly
as IEEE-754 does. -/
def decode (fmt : Fmt) (pat : Nat) : FVal :=
  let s : Bool := decide (pat / fmt.signBit = 1)
  let mag := pat % fmt.signBit
  if mag / fmt.mf = fmt.expTop then
    if mag % fmt.mf = 0 then .inf s else .nan
  else .fin s (patVal fmt mag)

/-- Attach a sign bit to a magnitude pattern. -/
def mkF (fmt : Fmt) (s : Bool) (P : Nat) : Nat :=
  if s then fmt.signBit + P else P

/-- Signed integer reading of a finite decoded value. -/
def signedInt (s : Bool) (n : Nat) : Int :=
  if s then -(n : Int) else n

/-- IEEE multiplication on bit patterns (round to nearest, ties to even).
The exact product of two fixed-scale integers `n, m` is `(n*m) * 2^(-2*scaleE)`,
i.e. `(n*m/2^scaleE) * 2^(-scaleE)`. -/
def fmul (fmt : Fmt) (x y : Nat) : Nat :=
  match decode fmt x, decode fmt y with
  | .nan, _ => fmt.nanP
  | _, .nan => fmt.nanP
  | .inf s, .inf t => mkF fmt (xor s t) fmt.infP
  | .inf s, .fin t m => if m = 0 then fmt.nanP else mkF fmt (xor s t) fmt.infP
  | .fin s n, .inf t => if n = 0 then fmt.nanP else mkF fmt (xor s t) fmt.infP
  | .fin s n, .fin t m => mkF fmt (xor s t) (roundQ fmt (n * m) (2 ^ fmt.scaleE))

/-- IEEE division on bit patterns: `(n/m) = (n * 2^scaleE / m) * 2^(-scaleE)`;
division by zero gives a signed infinity, `0/0` and `∞/∞` give NaN. -/
def fdiv (fmt : Fmt) (x y : Nat) : Nat :=
  match decode fmt x, decode fmt y with
  | .nan, _ => fmt.nanP
  | _, .nan => fmt.nanP
  | .inf _, .inf _ => fmt.nanP
  | .inf s, .fin t _ => mkF fmt (xor s t) fmt.infP
  | .fin s _, .inf t => mkF fmt (xor s t) 0
  | .fin s n, .fin t m =>
    if m = 0 then (if n = 0 then fmt.nanP else mkF fmt (xor s t) fmt.infP)
    else mkF fmt (xor s t) (roundQ fmt (n * 2 ^ fmt.scaleE) m)

/-- IEEE addition on bit patterns.  Finite sums are exact on the fixed-scale
integer grid before rounding; an exact zero sum is `+0` unless both summands
are zeros of the same sign (round-to-nearest-even zero-sign rules). -/
def fadd (fmt : Fmt) (x y : Nat) : Nat :=
  match decode fmt x, decode fmt y with
  | .nan, _ => fmt.nanP
  | _, .nan => fmt.nanP
  | .inf s, .inf t => if s = t then mkF fmt s fmt.infP else fmt.nanP
  | .inf s, .fin _ _ => mkF fmt s fmt.infP
  | .fin _ _, .inf t => mkF fmt t fmt.infP
  | .fin s n, .fin t m =>
    let i := signedInt s n + signedInt t m
    if i = 0 then (if n = 0 && m = 0 then mkF fmt (s && t) 0 else 0)
    else mkF fmt (decide (i < 0)) (roundQ fmt i.natAbs 1)

/-- IEEE subtraction on bit patterns (mirror of `fadd`; the exact-zero
difference of equal finite operands is `+0`). -/
def fsub (fmt : Fmt) (x y : Nat) : Nat :=
  match decode fmt x, decode fmt y with
  | .nan, _ => fmt.nanP
  | _, .nan => fmt.nanP
  | .inf s, .inf t => if s = t then fmt.nanP else mkF fmt s fmt.infP
  | .inf s, .fin _ _ => mkF fmt s fmt.infP
  | .fin _ _, .inf t => mkF fmt (!t) fmt.infP
  | .fin s n, .fin t m =>
    let i := signedInt s n - signedInt t m
    if i = 0 then (if n = 0 && m = 0 then mkF fmt (s && !t) 0 else 0)
    else mkF fmt (decide (i < 0)) (roundQ fmt i.natAbs 1)

/-- IEEE square root on bit patterns: `√(-0) = -0`, `√x = NaN` for `x < 0`. -/
def fsqrt (fmt : Fmt) (x : Nat) : Nat :=
  match decode fmt x with
  | .nan => fmt.nanP
  | .inf s => if s then fmt.nanP else fmt.infP
  | .fin s n => if n = 0 then mkF fmt s 0 else if s then fmt.nanP else roundSqrt fmt n

/-- Order key of a non-NaN pattern: magnitudes with the sign applied, so that
IEEE comparison is integer comparison of keys; both zeros map to key `0`. -/
def key (fmt : Fmt) (pat : Nat) : Int :=
  if pat / fmt.signBit = 1 then -((pat % fmt.signBit : Nat) : Int) else (pat % fmt.signBit : Nat)

/-- NaN test on a pattern (all-ones exponent, non-zero mantissa field). -/
def isNanF (fmt : Fmt) (pat : Nat) : Bool := fmt.infP < pat % fmt.signBit

/-- Finiteness test on a pattern. -/
def isFiniteF (fmt : Fmt) (pat : Nat) : Bool := pat % fmt.signBit < fmt.infP

/-- IEEE `<` on patterns: false whenever either side is NaN. -/
def flt (fmt : Fmt) (x y : Nat) : Bool :=
  !isNanF fmt x && !isNanF fmt y && decide (key fmt x < key fmt y)

/-- IEEE `<=` on patterns. -/
def fle (fmt : Fmt) (x y : Nat) : Bool :=
  !isNanF fmt x && !isNanF fmt y && decide (key fmt x ≤ key fmt y)

/-- IEEE `==` on patterns: `-0 == +0`, `NaN != NaN`. -/
def feq (fmt : Fmt) (x y : Nat) : Bool :=
  !isNanF fmt x && !isNanF fmt y && decide (key fmt x = key fmt y)

/-- IEEE `!=` on patterns (Rust `!=`): true whenever either side is NaN. -/
def fne (fmt : Fmt) (x y : Nat) : Bool := !feq fmt x y

/-- `num_traits::Zero::is_zero` for floats: exact comparison `self == 0.0`. -/
def is_zero (fmt : Fmt) (x : Nat) : Bool := feq fmt x 0

/-- Absolute value: clear the sign bit. -/
def fabs (fmt : Fmt) (x : Nat) : Nat := x % fmt.signBit

/-- Pattern of the scalar constant `ONE` (`1.0`). -/
def oneP (fmt : Fmt) : Nat := fmt.bias * fmt.mf

/-- Pattern of the scalar constant `EPSILON` (`2^(1-prec)`). -/
def epsP (fmt : Fmt) : Nat := (fmt.bias - (fmt.prec - 1)) * fmt.mf

/-- Rust `signum`: `1.0`/`-1.0` by sign bit, `NaN` for NaN (`±0` included in
the signed cases). -/
def signum (fmt : Fmt) (x : Nat) : Nat :=
  if isNanF fmt x then fmt.nanP
  else if x / fmt.signBit = 1 then fmt.signBit + oneP fmt else oneP fmt

/-- The pattern reinterpreted as a signed two's-complement integer, as the
`approx` crate does with `to_bits() as i32` / `as i64`. -/
def toSignedBits (fmt : Fmt) (pat : Nat) : Int :=
  if pat < fmt.signBit then (pat : Int) else (pat : Int) - 2 * fmt.signBit

/-- Modelled from the spec: the per-scalar absolute-difference primitive of the
`approx` crate (`AbsDiffEq::abs_diff_eq`), which the repository's `Approx`
implementations delegate to axis-wise: `|x - y| <= epsilon`. -/
def abs_diff_eq (fmt : Fmt) (x y eps : Nat) : Bool :=
  fle fmt (fabs fmt (fsub fmt x y)) eps

/-- Modelled from the spec: the per-scalar ULP-distance primitive of the
`approx` crate (`UlpsEq::ulps_eq`): first the absolute-difference check, then a
sign test via `signum`, then the bit-pattern distance against `max_ulps`. -/
def ulps_eq (fmt : Fmt) (x y eps : Nat) (maxUlps : Nat) : Bool :=
  if abs_diff_eq fmt x y eps then true
  else if fne fmt (signum fmt x) (signum fmt y) then false
  else (toSignedBits fmt x - toSignedBits fmt y).natAbs ≤ maxUlps

/-- Modelled from the spec: the `approx` crate's library-default epsilon is the
scalar's machine epsilon. -/
def default_epsilon (fmt : Fmt) : Nat := epsP fmt

/-- Modelled from the spec: the `approx` crate's library-default ULP tolerance. -/
def default_max_ulps : Nat := 4

/-- `GenericScalar::clamp` for `f32`/`f64` (src/lib.rs): delegates to the
standard library float clamp, modelled from the spec for `min <= max`:
`if self < min { min } else if self > max { max } else { self }`. -/
def clamp (fmt : Fmt) (v mn mx : Nat) : Nat :=
  if flt fmt v mn then mn else if flt fmt mx v then mx else v

/-- ℚ-denotation of a pattern: its exact finite value, `0` for NaN/∞ (only
used under finiteness hypotheses). -/
def Qden (fmt : Fmt) (pat : Nat) : ℚ :=
  match decode fmt pat with
  | .fin s n => (if s then -1 else 1) * (n : ℚ) / (2 ^ fmt.scaleE : ℚ)
  | _ => 0

/-- A 2D vector value: the two coordinate bit patterns (`HasXY` storage). -/
structure V2 where
  x : Nat
  y : Nat
deriving DecidableEq

/-- A 3D vector value: the three coordinate bit patterns (`HasXYZ` storage). -/
structure V3 where
  x : Nat
  y : Nat
  z : Nat
deriving DecidableEq

/-- `HasXY::new_2d` for 2D vector types. -/
def new_2d (x y : Nat) : V2 := ⟨x, y⟩

/-- `HasXYZ::new_3d`. -/
def new_3d (x y z : Nat) : V3 := ⟨x, y, z⟩

/-- `HasXY::new_2d` on an inherently 3D type: `new(x, y, Scalar::ZERO)`
(glam_impl.rs line 132, cgmath_impl.rs line 125, Vec3A at line 339).
`ZERO` is `0.0`, whose bit pattern is `0`. -/
def new_2d_v3 (x y : Nat) : V3 := ⟨x, y, 0⟩

/-- `HasXY::set_x` (`self.x = val`). -/
def set_x (v : V2) (val : Nat) : V2 := { v with x := val }

/-- `HasXY::set_y` (`self.y = val`). -/
def set_y (v : V2) (val : Nat) : V2 := { v with y := val }

/-- A store through the mutable reference returned by `HasXY::x_mut`
(`&mut self.x`): writes the `x` field. -/
def x_mut_write (v : V2) (val : Nat) : V2 := { v with x := val }

/-- A store through the mutable reference returned by `HasXY::y_mut`. -/
def y_mut_write (v : V2) (val : Nat) : V2 := { v with y := val }

/-- `HasXY::set_x` on a 3D type. -/
def set_x3 (v : V3) (val : Nat) : V3 := { v with x := val }

/-- `HasXY::set_y` on a 3D type. -/
def set_y3 (v : V3) (val : Nat) : V3 := { v with y := val }

/-- `HasXYZ::set_z` (`self.z = val`). -/
def set_z3 (v : V3) (val : Nat) : V3 := { v with z := val }

/-- A store through the mutable reference returned by `x_mut` on a 3D type. -/
def x_mut_write3 (v : V3) (val : Nat) : V3 := { v with x := val }

/-- A store through the mutable reference returned by `y_mut` on a 3D type. -/
def y_mut_write3 (v : V3) (val : Nat) : V3 := { v with y := val }

/-- A store through the mutable reference returned by `z_mut` on a 3D type. -/
def z_mut_write3 (v : V3) (val : Nat) : V3 := { v with z := val }

/-- `GenericVector2::to_3d` (`Vector3::new(self.x, self.y, z)`). -/
def to_3d (v : V2) (z : Nat) : V3 := ⟨v.x, v.y, z⟩

/-- `GenericVector3::to_2d` (`Vector2::new(self.x, self.y)`); takes the 3D
value unconsumed (a pure projection of the referenced value). -/
def to_2d (v : V3) : V2 := ⟨v.x, v.y⟩

/-- Componentwise `Mul<Scalar>` for 2D vectors. -/
def vmul2 (fmt : Fmt) (v : V2) (k : Nat) : V2 := ⟨fmul fmt v.x k, fmul fmt v.y k⟩

/-- Componentwise `Div<Scalar>` for 2D vectors. -/
def vdiv2 (fmt : Fmt) (v : V2) (k : Nat) : V2 := ⟨fdiv fmt v.x k, fdiv fmt v.y k⟩

/-- Componentwise `Div<Scalar>` for 3D vectors. -/
def vdiv3 (fmt : Fmt) (v : V3) (k : Nat) : V3 := ⟨fdiv fmt v.x k, fdiv fmt v.y k, fdiv fmt v.z k⟩

/-- Modelled from the spec: the backing libraries' 2D dot product
`x1*x2 + y1*y2` (the repository delegates `dot`/`length` to glam/cgmath). -/
def dot2 (fmt : Fmt) (a b : V2) : Nat :=
  fadd fmt (fmul fmt a.x b.x) (fmul fmt a.y b.y)

/-- Modelled from the spec: 3D dot product `x1*x2 + y1*y2 + z1*z2`,
left-associated. -/
def dot3 (fmt : Fmt) (a b : V3) : Nat :=
  fadd fmt (fadd fmt (fmul fmt a.x b.x) (fmul fmt a.y b.y)) (fmul fmt a.z b.z)

/-- `GenericVector2::magnitude`: modelled from the spec as the Euclidean norm
`sqrt(x² + y²)` (the repository delegates to the backing library's `length`). -/
def magnitude2 (fmt : Fmt) (v : V2) : Nat := fsqrt fmt (dot2 fmt v v)

/-- `GenericVector3::magnitude`: `sqrt(x² + y² + z²)`. -/
def magnitude3 (fmt : Fmt) (v : V3) : Nat := fsqrt fmt (dot3 fmt v v)

/-- `GenericVector2::safe_normalize` (glam_impl.rs lines 78–85, cgmath_impl.rs
lines 76–83): compute the length, return `None` when `l.is_zero()`, otherwise
`Some(self / l)`. -/
def safe_normalize2 (fmt : Fmt) (v : V2) : Option V2 :=
  let l := magnitude2 fmt v
  if is_zero fmt l then none else some (vdiv2 fmt v l)

/-- `GenericVector3::safe_normalize` (same shape with the 3D length). -/
def safe_normalize3 (fmt : Fmt) (v : V3) : Option V3 :=
  let l := magnitude3 fmt v
  if is_zero fmt l then none else some (vdiv3 fmt v l)

/-- `GenericVector2::normalize`: modelled from the spec: `self / magnitude()`,
unguarded (the repository delegates to the backing library's `normalize`). -/
def normalize2 (fmt : Fmt) (v : V2) : V2 := vdiv2 fmt v (magnitude2 fmt v)

/-- `GenericVector3::normalize`: `self / magnitude()`, unguarded. -/
def normalize3 (fmt : Fmt) (v : V3) : V3 := vdiv3 fmt v (magnitude3 fmt v)

/-- `GenericVector2::perp_dot` (cgmath_impl.rs line 72: `self.x * other.y -
self.y * other.x`; glam delegates to the same formula). -/
def perp_dot (fmt : Fmt) (a b : V2) : Nat :=
  fsub fmt (fmul fmt a.x b.y) (fmul fmt a.y b.x)

/-- `GenericVector3::cross`: modelled from the spec as the standard 3D cross
product, componentwise `(y1*z2 - z1*y2, z1*x2 - x1*z2, x1*y2 - y1*x2)` (the
repository delegates to glam/cgmath `cross`, which use this formula). -/
def cross (fmt : Fmt) (a b : V3) : V3 :=
  ⟨fsub fmt (fmul fmt a.y b.z) (fmul fmt a.z b.y),
   fsub fmt (fmul fmt a.z b.x) (fmul fmt a.x b.z),
   fsub fmt (fmul fmt a.x b.y) (fmul fmt a.y b.x)⟩

/-- `Approx::is_ulps_eq` for 2D vectors (glam_impl.rs lines 99–109): the
per-axis ULP comparisons, ANDed. -/
def is_ulps_eq2 (fmt : Fmt) (a b : V2) (eps maxUlps : Nat) : Bool :=
  ulps_eq fmt a.x b.x eps maxUlps && ulps_eq fmt a.y b.y eps maxUlps

/-- `Approx::is_abs_diff_eq` for 2D vectors (glam_impl.rs lines 110–119). -/
def is_abs_diff_eq2 (fmt : Fmt) (a b : V2) (eps : Nat) : Bool :=
  abs_diff_eq fmt a.x b.x eps && abs_diff_eq fmt a.y b.y eps

/-- `Approx::is_ulps_eq` for 3D vectors (three axes ANDed). -/
def is_ulps_eq3 (fmt : Fmt) (a b : V3) (eps maxUlps : Nat) : Bool :=
  ulps_eq fmt a.x b.x eps maxUlps && ulps_eq fmt a.y b.y eps maxUlps &&
    ulps_eq fmt a.z b.z eps maxUlps

/-- `Approx::is_abs_diff_eq` for 3D vectors. -/
def is_abs_diff_eq3 (fmt : Fmt) (a b : V3) (eps : Nat) : Bool :=
  abs_diff_eq fmt a.x b.x eps && abs_diff_eq fmt a.y b.y eps && abs_diff_eq fmt a.z b.z eps

/-- The float of integral value `k` (rounded if `k` needs more than `prec`
bits); used to write concrete test patterns readably. -/
def ofNat (fmt : Fmt) (k : Nat) : Nat :=
  roundQ fmt (k * 2 ^ fmt.scaleE) 1

/-- The float nearest `m * 2 ^ e`; used to write concrete test patterns. -/
def ofScaled (fmt : Fmt) (m : Nat) (e : Int) : Nat :=
  roundQ fmt (m * 2 ^ (e + (fmt.scaleE : Int)).toNat) (2 ^ (-(e + (fmt.scaleE : Int))).toNat)

/-!  Helper lemmas about the float model, shared by the claim theorems. -/

/-- The slice of `Fmt` arithmetic used throughout the proofs, expressed via
`mf` and `2 ^ ebits` so that `omega` can finish goals. -/
theorem Fmt.facts (fmt : Fmt) (hv : fmt.Valid) :
    2 ≤ fmt.mf ∧ fmt.signBit = 2 ^ fmt.ebits * fmt.mf ∧ 3 ≤ fmt.expTop ∧
      fmt.infP = fmt.expTop * fmt.mf ∧ fmt.infP < fmt.signBit ∧
      fmt.nanP = fmt.infP + 2 ^ (fmt.prec - 2) ∧ 2 * 2 ^ (fmt.prec - 2) = fmt.mf ∧
      0 < fmt.infP ∧ fmt.infP + fmt.mf = fmt.signBit := by
  obtain ⟨hp, he⟩ := hv
  have h1 : 2 ^ 1 ≤ 2 ^ (fmt.prec - 1) := Nat.pow_le_pow_right (by norm_num) (by omega)
  have hmf : 2 ≤ fmt.mf := by simpa [Fmt.mf] using h1
  have hsb : fmt.signBit = 2 ^ fmt.ebits * fmt.mf := by
    show 2 ^ (fmt.ebits + fmt.prec - 1) = 2 ^ fmt.ebits * 2 ^ (fmt.prec - 1)
    rw [← pow_add]
    congr 1
    omega
  have he1 : 2 ^ 2 ≤ 2 ^ fmt.ebits := Nat.pow_le_pow_right (by norm_num) he
  have hete : fmt.expTop = 2 ^ fmt.ebits - 1 := rfl
  have het : 3 ≤ fmt.expTop := by omega
  have hmm : 2 * 2 ^ (fmt.prec - 2) = fmt.mf := by
    show 2 * 2 ^ (fmt.prec - 2) = 2 ^ (fmt.prec - 1)
    rw [show fmt.prec - 1 = fmt.prec - 2 + 1 from by omega, pow_succ]
    ring
  have hexp : fmt.expTop < 2 ^ fmt.ebits := by omega
  have hmul : fmt.expTop * fmt.mf < 2 ^ fmt.ebits * fmt.mf :=
    Nat.mul_lt_mul_of_lt_of_le hexp le_rfl (by omega)
  have hinfe : fmt.infP = fmt.expTop * fmt.mf := rfl
  have hinf : fmt.infP < fmt.signBit := by omega
  have hpos : 0 < fmt.infP := by
    have := Nat.mul_pos (show 0 < fmt.expTop by omega) (show 0 < fmt.mf by omega)
    omega
  have hibs : fmt.infP + fmt.mf = fmt.signBit := by
    rw [hinfe, hsb]
    have hstep : fmt.expTop + 1 = 2 ^ fmt.ebits := by omega
    calc fmt.expTop * fmt.mf + fmt.mf = (fmt.expTop + 1) * fmt.mf := by ring
    _ = 2 ^ fmt.ebits * fmt.mf := by rw [hstep]
  exact ⟨hmf, hsb, het, hinfe, hinf, rfl, hmm, hpos, hibs⟩

/-- The zero magnitude pattern has fixed-scale value `0`. -/
theorem patVal_zero (fmt : Fmt) : patVal fmt 0 = 0 := by
  simp [patVal]

/-- Non-zero magnitude patterns have non-zero fixed-scale value. -/
theorem patVal_pos (fmt : Fmt) (P : Nat) (hP : 1 ≤ P) : 1 ≤ patVal fmt P := by
  unfold patVal
  rcases Nat.eq_zero_or_pos fmt.mf with h0 | h0
  · simp [h0, hP]
  split
  next h =>
    have h1 : P < fmt.mf := (Nat.div_eq_zero_iff h0).mp h
    have : P % fmt.mf = P := Nat.mod_eq_of_lt h1
    omega
  next h =>
    have h2 : 1 ≤ P % fmt.mf + fmt.mf := by omega
    have h3 : 1 ≤ 2 ^ (P / fmt.mf - 1) := Nat.one_le_two_pow
    calc 1 = 1 * 1 := by ring
    _ ≤ (P % fmt.mf + fmt.mf) * 2 ^ (P / fmt.mf - 1) := Nat.mul_le_mul h2 h3

/-- Binary search for a predicate false everywhere above `0` stays at `0`. -/
theorem bsearchLE_zero (pred : Nat → Bool) (h : ∀ P, 1 ≤ P → pred P = false) :
    ∀ fuel hi, bsearchLE pred fuel 0 hi = 0 := by
  intro fuel
  induction fuel with
  | zero => intro hi; rfl
  | succ n ih =>
    intro hi
    unfold bsearchLE
    split
    · rfl
    next hle =>
      have hmid : 1 ≤ (0 + hi + 1) / 2 := by omega
      rw [h _ hmid]
      simpa using ih ((0 + hi + 1) / 2 - 1)

/-- Rounding an exact zero yields the `+0` pattern. -/
theorem roundQ_zero (fmt : Fmt) (hv : fmt.Valid) (den : Nat) (hden : 0 < den) :
    roundQ fmt 0 den = 0 := by
  obtain ⟨hmf, hsb, het, hinfe, hinf, hnan, hmm, hpos, hibs⟩ := fmt.facts hv
  have hb1 : 1 ≤ patVal fmt (fmt.maxFinP + 1) := patVal_pos fmt _ (by omega)
  have hcond : ¬ ((patVal fmt fmt.maxFinP + patVal fmt (fmt.maxFinP + 1)) * den ≤ 2 * 0) := by
    have h1 : 1 * 1 ≤ (patVal fmt fmt.maxFinP + patVal fmt (fmt.maxFinP + 1)) * den :=
      Nat.mul_le_mul (by omega) hden
    omega
  have hsearch : bsearchLE (fun P => decide (patVal fmt P * den ≤ 0)) 70 0 fmt.maxFinP = 0 := by
    apply bsearchLE_zero
    intro P hP
    have h1 := patVal_pos fmt P hP
    have h2 : 1 * 1 ≤ patVal fmt P * den := Nat.mul_le_mul h1 hden
    simp only [decide_eq_false_iff_not]
    omega
  have hpick : nearestPick fmt 0 den 0 = 0 := by
    have h1 : 1 ≤ patVal fmt (0 + 1) := patVal_pos fmt (0 + 1) (by omega)
    have h2 : 1 * 1 ≤ (patVal fmt 0 + patVal fmt (0 + 1)) * den := Nat.mul_le_mul (by omega) hden
    unfold nearestPick
    rw [if_pos (by omega)]
  unfold roundQ
  rw [if_neg hcond, hsearch, hpick]

/-- Finite patterns decode to a `fin` value. -/
theorem decode_of_isFiniteF (fmt : Fmt) (pat : Nat) (h : isFiniteF fmt pat = true) :
    ∃ s n, decode fmt pat = .fin s n := by
  have h1 : pat % fmt.signBit < fmt.infP := by simpa [isFiniteF] using h
  have h2 : pat % fmt.signBit / fmt.mf ≠ fmt.expTop := by
    intro he
    have h3 : pat % fmt.signBit / fmt.mf * fmt.mf ≤ pat % fmt.signBit := Nat.div_mul_le_self _ _
    rw [he] at h3
    have h4 : fmt.infP = fmt.expTop * fmt.mf := rfl
    omega
  unfold decode
  rw [if_neg h2]
  exact ⟨_, _, rfl⟩

/-- Decoding a sign-attached finite magnitude pattern. -/
theorem decode_mkF (fmt : Fmt) (hv : fmt.Valid) (s : Bool) (P : Nat) (hP : P < fmt.infP) :
    decode fmt (mkF fmt s P) = .fin s (patVal fmt P) := by
  obtain ⟨hmf, hsb, het, hinfe, hinf, hnan, hmm, hpos, hibs⟩ := fmt.facts hv
  have hPs : P < fmt.signBit := by omega
  have hdiv : P / fmt.mf ≠ fmt.expTop := by
    intro h
    have : fmt.expTop * fmt.mf ≤ P := by
      rw [← h]
      exact Nat.div_mul_le_self P fmt.mf
    omega
  cases s with
  | false =>
    have h0 : mkF fmt false P = P := rfl
    rw [h0]
    unfold decode
    have hq : P / fmt.signBit = 0 := Nat.div_eq_of_lt hPs
    have hm : P % fmt.signBit = P := Nat.mod_eq_of_lt hPs
    simp [hq, hm, hdiv]
  | true =>
    have h0 : mkF fmt true P = fmt.signBit + P := rfl
    rw [h0]
    unfold decode
    have hsbpos : 0 < fmt.signBit := by omega
    have hq : (fmt.signBit + P) / fmt.signBit = 1 := by
      rw [Nat.add_comm, Nat.add_div_right _ hsbpos, Nat.div_eq_of_lt hPs]
    have hm : (fmt.signBit + P) % fmt.signBit = P := by
      rw [Nat.add_comm, Nat.add_mod_right, Nat.mod_eq_of_lt hPs]
    simp [hq, hm, hdiv]

/-- `signedInt` turns zero magnitudes into zero. -/
theorem signedInt_zero (s : Bool) : signedInt s 0 = 0 := by
  cases s <;> simp [signedInt]

/-- `signedInt` respects multiplication with sign-xor. -/
theorem signedInt_mul (s t : Bool) (n m : Nat) :
    signedInt s n * signedInt t m = signedInt (xor s t) (n * m) := by
  cases s <;> cases t <;> simp [signedInt]

/-- Equal signed readings have equal magnitudes. -/
theorem signedInt_inj_mag (s t : Bool) (n m : Nat) (h : signedInt s n = signedInt t m) :
    n = m := by
  cases s <;> cases t <;> simp [signedInt] at h <;> omega

/-- Equal non-zero signed readings have equal signs. -/
theorem signedInt_inj_sign (s t : Bool) (n m : Nat) (h : signedInt s n = signedInt t m)
    (hn : n ≠ 0) : s = t := by
  cases s <;> cases t <;> simp [signedInt] at h ⊢ <;> omega

/-- `x - x` is `+0` (bit pattern `0`) for every finite float `x`. -/
theorem fsub_self (fmt : Fmt) (x : Nat) (s : Bool) (n : Nat)
    (h : decode fmt x = .fin s n) : fsub fmt x x = 0 := by
  unfold fsub
  rw [h]
  simp [sub_self, Bool.and_not_self, mkF]

/-- IEEE multiplication is commutative on bit patterns. -/
theorem fmul_comm (fmt : Fmt) (a b : Nat) : fmul fmt a b = fmul fmt b a := by
  unfold fmul
  cases hxd : decode fmt a <;> cases hyd : decode fmt b <;>
    simp [Bool.xor_comm, Nat.mul_comm]

/-- The canonical NaN pattern is not finite. -/
theorem isFiniteF_nanP (fmt : Fmt) (hv : fmt.Valid) : isFiniteF fmt fmt.nanP = false := by
  obtain ⟨hmf, hsb, het, hinfe, hinf, hnane, hmm, hpos, hibs⟩ := fmt.facts hv
  have h1 : fmt.nanP < fmt.signBit := by omega
  have h2 : fmt.nanP % fmt.signBit = fmt.nanP := Nat.mod_eq_of_lt h1
  have h3 : ¬ (fmt.nanP < fmt.infP) := by omega
  simp [isFiniteF, h2, h3]

/-- Signed infinity patterns are not finite. -/
theorem isFiniteF_mkF_infP (fmt : Fmt) (hv : fmt.Valid) (s : Bool) :
    isFiniteF fmt (mkF fmt s fmt.infP) = false := by
  obtain ⟨hmf, hsb, het, hinfe, hinf, hnane, hmm, hpos, hibs⟩ := fmt.facts hv
  cases s
  · simp [mkF, isFiniteF, Nat.mod_eq_of_lt hinf]
  · have h1 : (fmt.signBit + fmt.infP) % fmt.signBit = fmt.infP := by
      rw [Nat.add_comm, Nat.add_mod_right, Nat.mod_eq_of_lt hinf]
    simp [mkF, isFiniteF, h1]

/-- `+0 == +0` under IEEE equality. -/
theorem feq_zero_refl (fmt : Fmt) : feq fmt 0 0 = true := by
  simp [feq, isNanF, key]

/-- Both signed zeros compare IEEE-equal to `+0`. -/
theorem feq_mkF_zero (fmt : Fmt) (hv : fmt.Valid) (s : Bool) : feq fmt (mkF fmt s 0) 0 = true := by
  obtain ⟨hmf, hsb, het, hinfe, hinf, hnane, hmm, hpos, hibs⟩ := fmt.facts hv
  cases s
  · exact feq_zero_refl fmt
  · have hsbp : 0 < fmt.signBit := by omega
    have h1 : (fmt.signBit + 0) % fmt.signBit = 0 := by
      simp
    have h2 : (fmt.signBit + 0) / fmt.signBit = 1 := by
      simp [Nat.div_self hsbp]
    simp [feq, mkF, isNanF, key, h1, h2]

/-- The difference of any two (signed) zero floats is IEEE-equal to zero. -/
theorem fsub_zeros (fmt : Fmt) (hv : fmt.Valid) (s t : Bool) :
    feq fmt (fsub fmt (mkF fmt s 0) (mkF fmt t 0)) 0 = true := by
  obtain ⟨hmf, hsb, het, hinfe, hinf, hnane, hmm, hpos, hibs⟩ := fmt.facts hv
  have h1 : decode fmt (mkF fmt s 0) = .fin s (patVal fmt 0) := decode_mkF fmt hv s 0 (by omega)
  have h2 : decode fmt (mkF fmt t 0) = .fin t (patVal fmt 0) := decode_mkF fmt hv t 0 (by omega)
  rw [patVal_zero] at h1 h2
  unfold fsub
  rw [h1, h2]
  simp [signedInt_zero]
  exact feq_mkF_zero fmt hv (s && !t)

/-- If an IEEE product is finite then both factors decode as finite values. -/
theorem fmul_fin_operands (fmt : Fmt) (hv : fmt.Valid) (x y : Nat)
    (h : isFiniteF fmt (fmul fmt x y) = true) :
    (∃ s n, decode fmt x = .fin s n) ∧ (∃ t m, decode fmt y = .fin t m) := by
  have hnan := isFiniteF_nanP fmt hv
  have hinfF := isFiniteF_mkF_infP fmt hv
  unfold fmul at h
  cases hxd : decode fmt x with
  | nan =>
    cases hyd : decode fmt y <;> rw [hxd, hyd] at h <;> simp [hnan] at h
  | inf s =>
    cases hyd : decode fmt y with
    | nan => rw [hxd, hyd] at h; simp [hnan] at h
    | inf t => rw [hxd, hyd] at h; simp [hinfF] at h
    | fin t m =>
      rw [hxd, hyd] at h
      simp only [] at h
      split at h
      · simp [hnan] at h
      · simp [hinfF] at h
  | fin s n =>
    cases hyd : decode fmt y with
    | nan => rw [hxd, hyd] at h; simp [hnan] at h
    | inf t =>
      rw [hxd, hyd] at h
      simp only [] at h
      split at h
      · simp [hnan] at h
      · simp [hinfF] at h
    | fin t m => exact ⟨⟨s, n, rfl⟩, ⟨t, m, rfl⟩⟩

/-!  Claim theorems. -/

/-- C1, counterexample: the f32 vector `(2^-140, 0)` is not the zero vector
(its x coordinate does not compare equal to `0.0`), yet `safe_normalize`
returns the absent value, because the squared magnitude `2^-280` underflows to
exactly `0.0`, whose square root is zero and passes the exact `is_zero` test.
So "absent iff v is exactly the zero vector" is false in the `none → v = 0`
direction. -/
theorem safe_normalize_zero_iff_cex :
    safe_normalize2 f32 (new_2d (ofScaled f32 1 (-140)) 0) = none ∧
      is_zero f32 (ofScaled f32 1 (-140)) = false ∧
      new_2d (ofScaled f32 1 (-140)) 0 ≠ new_2d 0 0 := by
  refine ⟨by decide, by decide, by decide⟩

set_option maxRecDepth 8000 in
/-- C1 (amended): `safe_normalize` returns the absent value if and only if the
computed magnitude `sqrt(x² + y² (+ z²))` is exactly zero, tested with the
scalar's exact `is_zero` (no epsilon); otherwise it returns `Some (v /
magnitude)`.  The zero vector always yields `none` (in both widths and both
dimensions), but `none` does not imply that `v` is exactly zero, since the
squared magnitude of a tiny non-zero vector can underflow to zero. -/
theorem safe_normalize_none_iff_zero_magnitude :
    (∀ (fmt : Fmt) (v : V2),
        (safe_normalize2 fmt v = none ↔ is_zero fmt (magnitude2 fmt v) = true) ∧
        (is_zero fmt (magnitude2 fmt v) = false →
          safe_normalize2 fmt v = some (vdiv2 fmt v (magnitude2 fmt v)))) ∧
    (∀ (fmt : Fmt) (v : V3),
        (safe_normalize3 fmt v = none ↔ is_zero fmt (magnitude3 fmt v) = true) ∧
        (is_zero fmt (magnitude3 fmt v) = false →
          safe_normalize3 fmt v = some (vdiv3 fmt v (magnitude3 fmt v)))) ∧
    safe_normalize2 f32 (new_2d 0 0) = none ∧ safe_normalize2 f64 (new_2d 0 0) = none ∧
    safe_normalize3 f32 (new_3d 0 0 0) = none ∧ safe_normalize3 f64 (new_3d 0 0 0) = none := by
  refine ⟨?_, ?_, by decide, by decide, by decide, by decide⟩
  · intro fmt v
    unfold safe_normalize2
    constructor
    · by_cases h : is_zero fmt (magnitude2 fmt v) = true <;> simp [h]
    · intro h
      simp [h]
  · intro fmt v
    unfold safe_normalize3
    constructor
    · by_cases h : is_zero fmt (magnitude3 fmt v) = true <;> simp [h]
    · intro h
      simp [h]

/-- C1, witness: the amended theorem applied at the f32 vector `(1, 0)`, whose
magnitude `1.0` is not zero, so `safe_normalize` is present. -/
theorem safe_normalize_none_iff_zero_magnitude_w :
    safe_normalize2 f32 (new_2d (ofNat f32 1) 0) =
      some (vdiv2 f32 (new_2d (ofNat f32 1) 0) (magnitude2 f32 (new_2d (ofNat f32 1) 0))) :=
  (safe_normalize_none_iff_zero_magnitude.1 f32 (new_2d (ofNat f32 1) 0)).2 (by decide)

/-- C2, counterexample: with the f32 vector `v = (2^100, 0)`, the non-zero
scalar `k = 2^50` and `z = 0`, the product `v * k` overflows to infinity, so
`(v * k).to_3d(z).to_2d() / k` is the infinite vector, not `v`: the round trip
is not exact for every non-zero `k`. -/
theorem dimensional_roundtrip_cex :
    is_zero f32 (ofScaled f32 1 50) = false ∧
      vdiv2 f32 (to_2d (to_3d (vmul2 f32 (new_2d (ofScaled f32 1 100) 0) (ofScaled f32 1 50)) 0))
          (ofScaled f32 1 50) ≠
        new_2d (ofScaled f32 1 100) 0 := by
  refine ⟨by decide, by decide⟩

/-- C2 (amended): the dimensional round trip `(v * k).to_3d(z).to_2d() / k`
adds no error of its own: whenever multiplying and then dividing each
coordinate by `k` is exact (as it is for example for powers of two without
overflow or underflow, the "exact-scale-invertible" `k`), the whole expression
reproduces `v` exactly, for any `z`.  For general non-zero `k` the result can
differ from `v` (rounding or overflow in `* k` / `/ k`). -/
theorem dimensional_roundtrip_exact_of_scale_invertible (fmt : Fmt) (v : V2) (k z : Nat)
    (hx : fdiv fmt (fmul fmt v.x k) k = v.x)
    (hy : fdiv fmt (fmul fmt v.y k) k = v.y) :
    vdiv2 fmt (to_2d (to_3d (vmul2 fmt v k) z)) k = v := by
  cases v
  simp_all [vmul2, to_3d, to_2d, vdiv2]

/-- C2, witness: the amended theorem applied at the f32 vector `(1.5, 2.5)`
with `k = 2` and `z = 1`: multiplication and division by `2` are exact here,
and the round trip reproduces the vector. -/
theorem dimensional_roundtrip_exact_of_scale_invertible_w :
    vdiv2 f32 (to_2d (to_3d (vmul2 f32 (new_2d (ofScaled f32 3 (-1)) (ofScaled f32 5 (-1)))
        (ofNat f32 2)) (ofNat f32 1))) (ofNat f32 2) =
      new_2d (ofScaled f32 3 (-1)) (ofScaled f32 5 (-1)) :=
  dimensional_roundtrip_exact_of_scale_invertible f32
    (new_2d (ofScaled f32 3 (-1)) (ofScaled f32 5 (-1))) (ofNat f32 2) (ofNat f32 1)
    (by decide) (by decide)

set_option maxRecDepth 8000 in
/-- C3: `normalize` is `self / magnitude()` componentwise (2D and 3D, both
widths), with no guard at zero magnitude: on the zero vector the division
produces NaN (`0/0`), and on a tiny non-zero f32 vector whose magnitude
underflows to zero it produces an infinity (`x/0`) and a NaN — no error and no
panic, just IEEE-754 special values. -/
theorem normalize_unguarded_div_by_magnitude :
    (∀ (fmt : Fmt) (v : V2), normalize2 fmt v = vdiv2 fmt v (magnitude2 fmt v)) ∧
    (∀ (fmt : Fmt) (v : V3), normalize3 fmt v = vdiv3 fmt v (magnitude3 fmt v)) ∧
    normalize2 f32 (new_2d 0 0) = new_2d f32.nanP f32.nanP ∧
    normalize3 f64 (new_3d 0 0 0) = new_3d f64.nanP f64.nanP f64.nanP ∧
    normalize2 f32 (new_2d (ofScaled f32 1 (-140)) 0) = new_2d f32.infP f32.nanP := by
  exact ⟨fun _ _ => rfl, fun _ _ => rfl, by decide, by decide, by decide⟩

/-- C7: projecting a 3D vector to 2D (`to_2d`, a pure read-only projection of
the referenced value: it just copies x and y) and re-lifting with the original
z coordinate reproduces the original vector bit-for-bit. -/
theorem to_2d_to_3d_roundtrip :
    ∀ v : V3, to_3d (to_2d v) v.z = v ∧ to_2d v = ⟨v.x, v.y⟩ :=
  fun _ => ⟨rfl, rfl⟩

/-- C8: the 2D constructor on an inherently 3D type yields the full 3D value
`(x, y, 0)`: the z axis defaults to the scalar `ZERO` constant, whose bit
pattern is `0` (`+0.0`), in both scalar widths. -/
theorem new_2d_on_3d_defaults_z_zero :
    ∀ x y : Nat, new_2d_v3 x y = new_3d x y 0 ∧ (new_2d_v3 x y).x = x ∧
      (new_2d_v3 x y).y = y ∧ (new_2d_v3 x y).z = 0 ∧
      is_zero f32 (new_2d_v3 x y).z = true ∧ is_zero f64 (new_2d_v3 x y).z = true :=
  fun _ _ => ⟨rfl, rfl, rfl, rfl, (by decide : is_zero f32 0 = true),
    (by decide : is_zero f64 0 = true)⟩

/-- C10: every setter and every store through a mutable-reference accessor
writes exactly its own coordinate: the other coordinates are bitwise
unchanged, the written axis holds the new value, and the mutable-reference
store and the setter produce identical post-states. -/
theorem setters_touch_only_own_axis :
    (∀ (v : V2) (val : Nat),
        (set_x v val).y = v.y ∧ (set_y v val).x = v.x ∧
        (set_x v val).x = val ∧ (set_y v val).y = val ∧
        x_mut_write v val = set_x v val ∧ y_mut_write v val = set_y v val) ∧
    (∀ (v : V3) (val : Nat),
        (set_x3 v val).y = v.y ∧ (set_x3 v val).z = v.z ∧
        (set_y3 v val).x = v.x ∧ (set_y3 v val).z = v.z ∧
        (set_z3 v val).x = v.x ∧ (set_z3 v val).y = v.y ∧
        (set_x3 v val).x = val ∧ (set_y3 v val).y = val ∧ (set_z3 v val).z = val ∧
        x_mut_write3 v val = set_x3 v val ∧ y_mut_write3 v val = set_y3 v val ∧
        z_mut_write3 v val = set_z3 v val) :=
  ⟨fun _ _ => ⟨rfl, rfl, rfl, rfl, rfl, rfl⟩,
   fun _ _ => ⟨rfl, rfl, rfl, rfl, rfl, rfl, rfl, rfl, rfl, rfl, rfl, rfl⟩⟩

set_option maxRecDepth 8000 in
/-- C9: scalar `clamp` performs standard clamping whenever `min <= max`: an
in-range value is returned unchanged, a below-range value clamps up to `min`
(concrete scenarios from the test suite, in both widths), and a value equal to
a boundary returns that boundary value. -/
theorem clamp_standard_behavior :
    (∀ (fmt : Fmt) (v mn mx : Nat), fle fmt mn v = true → fle fmt v mx = true →
        clamp fmt v mn mx = v) ∧
    (∀ (fmt : Fmt) (mn mx : Nat), fle fmt mn mx = true →
        clamp fmt mn mn mx = mn ∧ clamp fmt mx mn mx = mx) ∧
    clamp f32 (ofNat f32 6) (ofNat f32 5) (ofNat f32 8) = ofNat f32 6 ∧
    clamp f32 (ofNat f32 5) (ofNat f32 6) (ofNat f32 8) = ofNat f32 6 ∧
    clamp f64 (ofNat f64 6) (ofNat f64 5) (ofNat f64 8) = ofNat f64 6 ∧
    clamp f64 (ofNat f64 5) (ofNat f64 6) (ofNat f64 8) = ofNat f64 6 := by
  refine ⟨?_, ?_, by decide, by decide, by decide, by decide⟩
  · intro fmt v mn mx h1 h2
    simp only [fle, Bool.and_eq_true, Bool.not_eq_true', decide_eq_true_eq] at h1 h2
    obtain ⟨⟨hn1, hn2⟩, hk1⟩ := h1
    obtain ⟨⟨hn3, hn4⟩, hk2⟩ := h2
    have hf1 : flt fmt v mn = false := by
      simp only [flt, hn1, hn2, Bool.not_false, Bool.true_and, decide_eq_false_iff_not]
      omega
    have hf2 : flt fmt mx v = false := by
      simp only [flt, hn2, hn4, Bool.not_false, Bool.true_and, decide_eq_false_iff_not]
      omega
    simp [clamp, hf1, hf2]
  · intro fmt mn mx h
    simp only [fle, Bool.and_eq_true, Bool.not_eq_true', decide_eq_true_eq] at h
    obtain ⟨⟨hn1, hn2⟩, hk⟩ := h
    have hf1 : flt fmt mn mn = false := by
      simp only [flt, hn1, Bool.not_false, Bool.true_and, decide_eq_false_iff_not]
      omega
    have hf2 : flt fmt mx mn = false := by
      simp only [flt, hn1, hn2, Bool.not_false, Bool.true_and, decide_eq_false_iff_not]
      omega
    have hf3 : flt fmt mx mx = false := by
      simp only [flt, hn2, Bool.not_false, Bool.true_and, decide_eq_false_iff_not]
      omega
    exact ⟨by simp [clamp, hf1, hf2], by simp [clamp, hf2, hf3]⟩

set_option maxRecDepth 8000 in
/-- C9, witness: the theorem's general clauses applied at concrete inputs:
`clamp(7, 5, 8) = 7` (in range) and `clamp(5, 5, 8) = 5` (value equal to the
lower boundary), the latter in double precision. -/
theorem clamp_standard_behavior_w :
    clamp f32 (ofNat f32 7) (ofNat f32 5) (ofNat f32 8) = ofNat f32 7 ∧
      clamp f64 (ofNat f64 5) (ofNat f64 5) (ofNat f64 8) = ofNat f64 5 :=
  ⟨clamp_standard_behavior.1 f32 (ofNat f32 7) (ofNat f32 5) (ofNat f32 8)
      (by decide) (by decide),
   (clamp_standard_behavior.2.1 f64 (ofNat f64 5) (ofNat f64 8) (by decide)).1⟩

/-- The absolute-difference comparison is reflexive at finite scalars (the
difference is an exact `+0`, which is within any non-negative epsilon). -/
theorem abs_diff_eq_self_of_finite (fmt : Fmt) (x eps : Nat) (s : Bool) (n : Nat)
    (hd : decode fmt x = .fin s n) (heps : fle fmt 0 eps = true) :
    abs_diff_eq fmt x x eps = true := by
  unfold abs_diff_eq
  rw [fsub_self fmt x s n hd]
  have h0 : fabs fmt 0 = 0 := by simp [fabs]
  rw [h0]
  exact heps

/-- The ULP comparison is reflexive at finite scalars (its first branch, the
absolute-difference check, already succeeds). -/
theorem ulps_eq_self_of_finite (fmt : Fmt) (x eps maxU : Nat) (s : Bool) (n : Nat)
    (hd : decode fmt x = .fin s n) (heps : fle fmt 0 eps = true) :
    ulps_eq fmt x x eps maxU = true := by
  unfold ulps_eq
  rw [abs_diff_eq_self_of_finite fmt x eps s n hd heps]
  simp

/-- Axis-wise reflexivity of both `Approx` comparisons for 2D vectors with
finite coordinates. -/
theorem approx_vec2_self (fmt : Fmt) (heps : fle fmt 0 (default_epsilon fmt) = true)
    (v : V2) (hx : isFiniteF fmt v.x = true) (hy : isFiniteF fmt v.y = true) :
    is_ulps_eq2 fmt v v (default_epsilon fmt) default_max_ulps = true ∧
      is_abs_diff_eq2 fmt v v (default_epsilon fmt) = true := by
  obtain ⟨sx, nx, hdx⟩ := decode_of_isFiniteF fmt v.x hx
  obtain ⟨sy, ny, hdy⟩ := decode_of_isFiniteF fmt v.y hy
  constructor
  · unfold is_ulps_eq2
    rw [ulps_eq_self_of_finite fmt v.x _ _ sx nx hdx heps,
      ulps_eq_self_of_finite fmt v.y _ _ sy ny hdy heps]
    rfl
  · unfold is_abs_diff_eq2
    rw [abs_diff_eq_self_of_finite fmt v.x _ sx nx hdx heps,
      abs_diff_eq_self_of_finite fmt v.y _ sy ny hdy heps]
    rfl

/-- Axis-wise reflexivity of both `Approx` comparisons for 3D vectors with
finite coordinates. -/
theorem approx_vec3_self (fmt : Fmt) (heps : fle fmt 0 (default_epsilon fmt) = true)
    (v : V3) (hx : isFiniteF fmt v.x = true) (hy : isFiniteF fmt v.y = true)
    (hz : isFiniteF fmt v.z = true) :
    is_ulps_eq3 fmt v v (default_epsilon fmt) default_max_ulps = true ∧
      is_abs_diff_eq3 fmt v v (default_epsilon fmt) = true := by
  obtain ⟨sx, nx, hdx⟩ := decode_of_isFiniteF fmt v.x hx
  obtain ⟨sy, ny, hdy⟩ := decode_of_isFiniteF fmt v.y hy
  obtain ⟨sz, nz, hdz⟩ := decode_of_isFiniteF fmt v.z hz
  constructor
  · unfold is_ulps_eq3
    rw [ulps_eq_self_of_finite fmt v.x _ _ sx nx hdx heps,
      ulps_eq_self_of_finite fmt v.y _ _ sy ny hdy heps,
      ulps_eq_self_of_finite fmt v.z _ _ sz nz hdz heps]
    rfl
  · unfold is_abs_diff_eq3
    rw [abs_diff_eq_self_of_finite fmt v.x _ sx nx hdx heps,
      abs_diff_eq_self_of_finite fmt v.y _ sy ny hdy heps,
      abs_diff_eq_self_of_finite fmt v.z _ sz nz hdz heps]
    rfl

/-- C5, counterexample: at the vector `(NaN, 0)`, both comparisons with
themselves under the default tolerances return `false` (`|NaN - NaN|` is NaN,
which is not `<= epsilon`, and `signum(NaN) != signum(NaN)` is true): the
unrestricted "for every vector v" reflexivity claim is false. -/
theorem approx_self_cex :
    is_ulps_eq2 f32 (new_2d f32.nanP 0) (new_2d f32.nanP 0) (default_epsilon f32)
        default_max_ulps = false ∧
      is_abs_diff_eq2 f32 (new_2d f32.nanP 0) (new_2d f32.nanP 0) (default_epsilon f32) =
        false := by
  refine ⟨by decide, by decide⟩

set_option maxRecDepth 8000 in
/-- C5 (amended): for every vector all of whose coordinates are finite (no NaN
and no infinity), `is_ulps_eq(v, v, default_epsilon, default_max_ulps)` and
`is_abs_diff_eq(v, v, default_epsilon)` both return `true`; the comparisons
are computed independently per axis and ANDed.  Reflexivity fails at NaN
coordinates (both comparisons) and at infinite coordinates (the
absolute-difference comparison, since `inf - inf` is NaN). -/
theorem approx_self_eq_of_finite :
    (∀ v : V2, isFiniteF f32 v.x = true → isFiniteF f32 v.y = true →
        is_ulps_eq2 f32 v v (default_epsilon f32) default_max_ulps = true ∧
          is_abs_diff_eq2 f32 v v (default_epsilon f32) = true) ∧
    (∀ v : V2, isFiniteF f64 v.x = true → isFiniteF f64 v.y = true →
        is_ulps_eq2 f64 v v (default_epsilon f64) default_max_ulps = true ∧
          is_abs_diff_eq2 f64 v v (default_epsilon f64) = true) ∧
    (∀ v : V3, isFiniteF f32 v.x = true → isFiniteF f32 v.y = true →
        isFiniteF f32 v.z = true →
        is_ulps_eq3 f32 v v (default_epsilon f32) default_max_ulps = true ∧
          is_abs_diff_eq3 f32 v v (default_epsilon f32) = true) ∧
    (∀ v : V3, isFiniteF f64 v.x = true → isFiniteF f64 v.y = true →
        isFiniteF f64 v.z = true →
        is_ulps_eq3 f64 v v (default_epsilon f64) default_max_ulps = true ∧
          is_abs_diff_eq3 f64 v v (default_epsilon f64) = true) :=
  ⟨fun v hx hy => approx_vec2_self f32 (by decide) v hx hy,
   fun v hx hy => approx_vec2_self f64 (by decide) v hx hy,
   fun v hx hy hz => approx_vec3_self f32 (by decide) v hx hy hz,
   fun v hx hy hz => approx_vec3_self f64 (by decide) v hx hy hz⟩

set_option maxRecDepth 8000 in
/-- C5, witness: the amended theorem applied at the finite vectors `(1, 2)`
(f32) and `(1, 2, 3)` (f64). -/
theorem approx_self_eq_of_finite_w :
    (is_ulps_eq2 f32 (new_2d (ofNat f32 1) (ofNat f32 2)) (new_2d (ofNat f32 1) (ofNat f32 2))
        (default_epsilon f32) default_max_ulps = true ∧
      is_abs_diff_eq2 f32 (new_2d (ofNat f32 1) (ofNat f32 2))
        (new_2d (ofNat f32 1) (ofNat f32 2)) (default_epsilon f32) = true) ∧
    (is_ulps_eq3 f64 (new_3d (ofNat f64 1) (ofNat f64 2) (ofNat f64 3))
        (new_3d (ofNat f64 1) (ofNat f64 2) (ofNat f64 3))
        (default_epsilon f64) default_max_ulps = true ∧
      is_abs_diff_eq3 f64 (new_3d (ofNat f64 1) (ofNat f64 2) (ofNat f64 3))
        (new_3d (ofNat f64 1) (ofNat f64 2) (ofNat f64 3)) (default_epsilon f64) = true) :=
  ⟨approx_self_eq_of_finite.1 (new_2d (ofNat f32 1) (ofNat f32 2)) (by decide) (by decide),
   approx_self_eq_of_finite.2.2.2 (new_3d (ofNat f64 1) (ofNat f64 2) (ofNat f64 3))
     (by decide) (by decide) (by decide)⟩

/-- C4, counterexample: with the f32 vector `v = (2^100, 2^100, 2^100)`, each
cross term `2^100 * 2^100` overflows to infinity, and `inf - inf` is NaN, so
`cross(v, v)` is the all-NaN vector, which is not the zero vector: the
unrestricted "for every 3D vector v" claim is false. -/
theorem cross_self_cex :
    cross f32 (new_3d (ofScaled f32 1 100) (ofScaled f32 1 100) (ofScaled f32 1 100))
        (new_3d (ofScaled f32 1 100) (ofScaled f32 1 100) (ofScaled f32 1 100)) =
      new_3d f32.nanP f32.nanP f32.nanP ∧
      feq f32 f32.nanP 0 = false := by
  refine ⟨by decide, by decide⟩

/-- C4 (amended): for every 3D vector `v` whose pairwise coordinate products
do not overflow (each cross term `v.i * v.j` is finite, which also excludes
NaN and infinite coordinates), `cross(v, v)` is exactly the `+0` zero vector:
each component is the difference of a product with itself (multiplication is
commutative on floats) and an exact zero difference rounds to `+0`. -/
theorem cross_self_zero_of_finite (fmt : Fmt) (v : V3)
    (h1 : isFiniteF fmt (fmul fmt v.y v.z) = true)
    (h2 : isFiniteF fmt (fmul fmt v.z v.x) = true)
    (h3 : isFiniteF fmt (fmul fmt v.x v.y) = true) :
    cross fmt v v = new_3d 0 0 0 := by
  obtain ⟨s1, n1, hd1⟩ := decode_of_isFiniteF fmt _ h1
  obtain ⟨s2, n2, hd2⟩ := decode_of_isFiniteF fmt _ h2
  obtain ⟨s3, n3, hd3⟩ := decode_of_isFiniteF fmt _ h3
  unfold cross new_3d
  simp only [V3.mk.injEq]
  refine ⟨?_, ?_, ?_⟩
  · rw [fmul_comm fmt v.z v.y]
    exact fsub_self fmt _ s1 n1 hd1
  · rw [fmul_comm fmt v.x v.z]
    exact fsub_self fmt _ s2 n2 hd2
  · rw [fmul_comm fmt v.y v.x]
    exact fsub_self fmt _ s3 n3 hd3

/-- C4, witness: the amended theorem applied at the f32 vector `(1, 2, 3)`,
whose cross terms are all finite. -/
theorem cross_self_zero_of_finite_w :
    cross f32 (new_3d (ofNat f32 1) (ofNat f32 2) (ofNat f32 3))
        (new_3d (ofNat f32 1) (ofNat f32 2) (ofNat f32 3)) = new_3d 0 0 0 :=
  cross_self_zero_of_finite f32 (new_3d (ofNat f32 1) (ofNat f32 2) (ofNat f32 3))
    (by decide) (by decide) (by decide)

/-- `Qden` of a pattern that decodes as finite, in terms of `signedInt`. -/
theorem Qden_fin (fmt : Fmt) (pat : Nat) (s : Bool) (n : Nat)
    (h : decode fmt pat = .fin s n) :
    Qden fmt pat = (signedInt s n : ℚ) / (2 ^ fmt.scaleE : ℚ) := by
  unfold Qden
  rw [h]
  cases s <;> simp [signedInt]

/-- C6, counterexample: the f32 vector `(2^100, 2^100)` is collinear with
itself (the exact cross terms agree), yet `perp_dot` of the pair is NaN, not
zero, because both products overflow to infinity and `inf - inf` is NaN: the
unrestricted "zero for collinear vectors" clause is false. -/
theorem perp_dot_collinear_cex :
    Qden f32 (ofScaled f32 1 100) * Qden f32 (ofScaled f32 1 100) =
        Qden f32 (ofScaled f32 1 100) * Qden f32 (ofScaled f32 1 100) ∧
      perp_dot f32 (new_2d (ofScaled f32 1 100) (ofScaled f32 1 100))
          (new_2d (ofScaled f32 1 100) (ofScaled f32 1 100)) = f32.nanP ∧
      feq f32 f32.nanP 0 = false :=
  ⟨rfl, by decide, by decide⟩

/-- C6 (amended): `perp_dot(a, b)` is computed as `x1*y2 - y1*x2` (with IEEE
multiplication and subtraction); it is signed; for collinear vectors — pairs
whose exact coordinate cross terms agree as real numbers — whose rounded
cross-term products do not overflow, the result compares IEEE-equal to zero;
and in particular `perp_dot((1, 2), (6, 12))` is exactly `+0.0`. -/
theorem perp_dot_formula_and_collinear_zero :
    (∀ (fmt : Fmt) (a b : V2),
        perp_dot fmt a b = fsub fmt (fmul fmt a.x b.y) (fmul fmt a.y b.x)) ∧
    (∀ (fmt : Fmt), fmt.Valid → ∀ a b : V2,
        Qden fmt a.x * Qden fmt b.y = Qden fmt a.y * Qden fmt b.x →
        isFiniteF fmt (fmul fmt a.x b.y) = true →
        isFiniteF fmt (fmul fmt a.y b.x) = true →
        feq fmt (perp_dot fmt a b) 0 = true) ∧
    perp_dot f32 (new_2d (ofNat f32 1) (ofNat f32 2))
        (new_2d (ofNat f32 6) (ofNat f32 12)) = 0 := by
  refine ⟨fun _ _ _ => rfl, ?_, by decide⟩
  intro fmt hv a b hcol h1 h2
  obtain ⟨⟨s1, n1, hd1⟩, ⟨s4, n4, hd4⟩⟩ := fmul_fin_operands fmt hv _ _ h1
  obtain ⟨⟨s3, n3, hd3⟩, ⟨s2, n2, hd2⟩⟩ := fmul_fin_operands fmt hv _ _ h2
  rw [Qden_fin fmt a.x s1 n1 hd1, Qden_fin fmt b.y s4 n4 hd4,
    Qden_fin fmt a.y s3 n3 hd3, Qden_fin fmt b.x s2 n2 hd2] at hcol
  have hD : (2 ^ fmt.scaleE : ℚ) ≠ 0 := by positivity
  have hZ : signedInt s1 n1 * signedInt s4 n4 = signedInt s3 n3 * signedInt s2 n2 := by
    field_simp at hcol
    exact_mod_cast hcol
  rw [signedInt_mul, signedInt_mul] at hZ
  have hmag : n1 * n4 = n3 * n2 := signedInt_inj_mag _ _ _ _ hZ
  have e1 : fmul fmt a.x b.y =
      mkF fmt (xor s1 s4) (roundQ fmt (n1 * n4) (2 ^ fmt.scaleE)) := by
    unfold fmul
    rw [hd1, hd4]
  have e2 : fmul fmt a.y b.x =
      mkF fmt (xor s3 s2) (roundQ fmt (n3 * n2) (2 ^ fmt.scaleE)) := by
    unfold fmul
    rw [hd3, hd2]
  show feq fmt (fsub fmt (fmul fmt a.x b.y) (fmul fmt a.y b.x)) 0 = true
  by_cases hz : n1 * n4 = 0
  · have hz2 : n3 * n2 = 0 := by omega
    have hden : 0 < 2 ^ fmt.scaleE := Nat.pos_pow_of_pos _ (by norm_num)
    have hr1 : roundQ fmt (n1 * n4) (2 ^ fmt.scaleE) = 0 := by
      rw [hz]
      exact roundQ_zero fmt hv _ hden
    have hr2 : roundQ fmt (n3 * n2) (2 ^ fmt.scaleE) = 0 := by
      rw [hz2]
      exact roundQ_zero fmt hv _ hden
    rw [e1, e2, hr1, hr2]
    exact fsub_zeros fmt hv _ _
  · have hs : xor s1 s4 = xor s3 s2 := signedInt_inj_sign _ _ _ _ hZ hz
    have hceq : fmul fmt a.y b.x = fmul fmt a.x b.y := by
      rw [e1, e2, hmag, hs]
    rw [hceq]
    obtain ⟨sc, nc, hdc⟩ := decode_of_isFiniteF fmt _ h1
    rw [fsub_self fmt _ sc nc hdc]
    exact feq_zero_refl fmt

/-- C6, witness: the collinear clause of the theorem applied to the finite f32
vector `(1, 2)` paired with itself (every vector is collinear with itself; the
cross-term identity is commutativity), whose `perp_dot` compares equal to
zero. -/
theorem perp_dot_formula_and_collinear_zero_w :
    feq f32 (perp_dot f32 (new_2d (ofNat f32 1) (ofNat f32 2))
        (new_2d (ofNat f32 1) (ofNat f32 2))) 0 = true :=
  perp_dot_formula_and_collinear_zero.2.1 f32 (by decide)
    (new_2d (ofNat f32 1) (ofNat f32 2)) (new_2d (ofNat f32 1) (ofNat f32 2))
    (mul_comm _ _) (by decide) (by decide)


end VectorTraits
